import Mathlib

/-!
Verification of the High Card game (`game.py`, `strategies/sample_strategies.py`).

The Python code is shallowly embedded: hands are `List Nat` (Python lists of
ints), a `Player` is a structure with name, score and remaining numbers, and
operations that can raise a Python exception return `Except PyErr _`.  The
built-ins `max`/`min` on an empty sequence raise `ValueError` and
`random.choice` on an empty sequence raises `IndexError`; both are modelled
explicitly.  `random.choice` is modelled by an arbitrary index draw `i`,
reduced modulo the list length, so theorems quantified over `i` cover every
possible random outcome.
-/

/-- Kinds of failure a strategy call can produce.  `valueError` and
`indexError` are the Python built-in exceptions raised by `max`/`min` and
`random.choice` on empty sequences; `invalidState` is the dedicated defensive
error condition named by the design document (no code path produces it). -/
inductive PyErr where
  | valueError
  | indexError
  | invalidState
deriving DecidableEq, Repr

/-- Python `max(seq)` on a list: `ValueError` when empty, else the maximum. -/
def pyMax : List Nat → Except PyErr Nat
  | [] => .error .valueError
  | x :: xs => .ok (xs.foldl max x)

/-- Python `min(seq)` on a list: `ValueError` when empty, else the minimum. -/
def pyMin : List Nat → Except PyErr Nat
  | [] => .error .valueError
  | x :: xs => .ok (xs.foldl min x)

/-- Python `random.choice(seq)`: `IndexError` when empty, else the element at
the drawn index `i` (taken modulo the length, so every `i` is a possible
draw and every element is reachable). -/
def randomChoice (i : Nat) : List Nat → Except PyErr Nat
  | [] => .error .indexError
  | x :: xs => .ok ((x :: xs).getD (i % (x :: xs).length) 0)

/-- `RandomStrategy.play`: `random.choice(player_numbers)`, with the random
draw made explicit as `i`. -/
def randomStrategyPlay (i : Nat) (player_numbers _opponent_numbers : List Nat) :
    Except PyErr Nat :=
  randomChoice i player_numbers

/-- `HighCardStrategy.play`: `max(player_numbers)`. -/
def highCardStrategyPlay (player_numbers _opponent_numbers : List Nat) :
    Except PyErr Nat :=
  pyMax player_numbers

/-- `LowCardStrategy.play`: `min(player_numbers)`. -/
def lowCardStrategyPlay (player_numbers _opponent_numbers : List Nat) :
    Except PyErr Nat :=
  pyMin player_numbers

/-- `StrategicPlay.play`: if the opponent has no numbers, `max(player_numbers)`;
otherwise the minimum card beating `max(opponent_numbers)` when one exists,
else `min(player_numbers)`. -/
def strategicPlayPlay (player_numbers opponent_numbers : List Nat) :
    Except PyErr Nat :=
  if opponent_numbers = [] then
    pyMax player_numbers
  else
    match pyMax opponent_numbers with
    | .error e => .error e
    | .ok opponent_highest =>
      let winning_cards :=
        player_numbers.filter (fun card => decide (opponent_highest < card))
      if winning_cards ≠ [] then pyMin winning_cards
      else pyMin player_numbers

/-- `Player`: name, score (starts at 0) and the remaining numbers. -/
structure Player where
  name : String
  score : Nat
  numbers : List Nat
deriving DecidableEq, Repr

/-- `Player.__init__`: score 0, numbers `list(range(1, 14))`. -/
def mkPlayer (name : String) : Player :=
  { name := name, score := 0, numbers := List.range' 1 13 }

/-- `Player.remove_number`: if the number is present, remove (the first
occurrence of) it and return `True`; otherwise leave the player unchanged and
return `False`. -/
def removeNumber (p : Player) (number : Nat) : Player × Bool :=
  if number ∈ p.numbers then
    ({ p with numbers := p.numbers.erase number }, true)
  else
    (p, false)

/-- `Game._update_game_state`: compare the two choices, award a point to the
strictly higher one (no point on a tie), then remove both played numbers.
The boolean result of `remove_number` is ignored here, as in the source. -/
def updateGameState (player1_choice player2_choice : Nat)
    (player1 player2 : Player) : Player × Player :=
  let scored :=
    if player2_choice < player1_choice then
      ({ player1 with score := player1.score + 1 }, player2)
    else if player1_choice < player2_choice then
      (player1, { player2 with score := player2.score + 1 })
    else
      (player1, player2)
  ((removeNumber scored.1 player1_choice).1, (removeNumber scored.2 player2_choice).1)

/-- Outcome declared by `Game._end_game`. -/
inductive GameResult where
  | player1Wins
  | player2Wins
  | tieGame
deriving DecidableEq, Repr

/-- `Game._end_game`: higher final score wins, equal scores are a tie game. -/
def endGame (player1 player2 : Player) : GameResult :=
  if player2.score < player1.score then .player1Wins
  else if player1.score < player2.score then .player2Wins
  else .tieGame

/-- `Game.total_turns`. -/
def totalTurns : Nat := 13

/-- One turn of `Game.simulate_game`: strategy 1 chooses from player 1's
numbers seeing player 2's, then strategy 2 chooses from player 2's numbers
seeing player 1's (both before any removal), then `_update_game_state`. -/
def simStep (f g : List Nat → List Nat → Except PyErr Nat)
    (s : Player × Player) : Except PyErr (Player × Player) := do
  let player1_choice ← f s.1.numbers s.2.numbers
  let player2_choice ← g s.2.numbers s.1.numbers
  pure (updateGameState player1_choice player2_choice s.1 s.2)

/-- `Game.simulate_game`, cut after `k` turns: fresh players named after the
two strategies, then `k` iterations of the per-turn body.  The full
simulation is `simulateGame f g name1 name2 totalTurns`. -/
def simulateGame (f g : List Nat → List Nat → Except PyErr Nat)
    (name1 name2 : String) : Nat → Except PyErr (Player × Player)
  | 0 => .ok (mkPlayer name1, mkPlayer name2)
  | k + 1 => do
    let s ← simulateGame f g name1 name2 k
    simStep f g s

/-- The pair of choices the two strategies make on turn `k` (1-based) of
`Game.simulate_game`, read off the state after `k - 1` resolved turns. -/
def turnChoices (f g : List Nat → List Nat → Except PyErr Nat)
    (name1 name2 : String) (k : Nat) : Except PyErr (Nat × Nat) := do
  let s ← simulateGame f g name1 name2 (k - 1)
  let player1_choice ← f s.1.numbers s.2.numbers
  let player2_choice ← g s.2.numbers s.1.numbers
  pure (player1_choice, player2_choice)

/-- `Game._get_player_choice`, one iteration of its validation loop on the
entered number `choice`: `remove_number` is attempted at once; on success the
(already mutated) player and the choice are returned, on failure the loop
re-prompts (modelled as `none`). -/
def getPlayerChoice (p : Player) (choice : Nat) : Option (Player × Nat) :=
  match removeNumber p choice with
  | (p2, true) => some (p2, choice)
  | (_, false) => none

/-- One turn of `Game.play` (interactive mode) on accepted human input `c`:
validate and remove the human's number, then ask the computer's strategy with
the human's *post-removal* numbers as `opponent_numbers`, then
`_update_game_state` with the human as player 1.  `none` models a turn that
cannot complete (rejected input keeps re-prompting; a strategy exception
propagates). -/
def playTurn (strat : List Nat → List Nat → Except PyErr Nat)
    (human computer : Player) (c : Nat) : Option (Player × Player) :=
  match getPlayerChoice human c with
  | none => none
  | some (human2, player_choice) =>
    match strat computer.numbers human2.numbers with
    | .error _ => none
    | .ok computer_choice =>
      some (updateGameState player_choice computer_choice human2 computer)

/-- `Game.play`'s turn loop over a list of accepted human inputs. -/
def playMatch (strat : List Nat → List Nat → Except PyErr Nat) :
    List Nat → Player × Player → Option (Player × Player)
  | [], s => some s
  | c :: cs, s =>
    match playTurn strat s.1 s.2 c with
    | none => none
    | some s2 => playMatch strat cs s2

/-- `m` is the maximum of the list `l` (the value Python's `max` returns). -/
def IsMaxOf (l : List Nat) (m : Nat) : Prop :=
  m ∈ l ∧ ∀ y ∈ l, y ≤ m

/-- `m` is the minimum of the list `l` (the value Python's `min` returns). -/
def IsMinOf (l : List Nat) (m : Nat) : Prop :=
  m ∈ l ∧ ∀ y ∈ l, m ≤ y

/-- The contract of §4.1: on every non-empty `own`, the strategy returns
normally with an element of `own`. -/
def ValidStrategy (f : List Nat → List Nat → Except PyErr Nat) : Prop :=
  ∀ own opp : List Nat, own ≠ [] → ∃ r, f own opp = .ok r ∧ r ∈ own

deriving instance DecidableEq for Except

/-! ### Helper lemmas -/

theorem foldl_max_spec (xs : List Nat) : ∀ x : Nat,
    xs.foldl max x ∈ x :: xs ∧ ∀ y ∈ x :: xs, y ≤ xs.foldl max x := by
  induction xs with
  | nil =>
    intro x
    refine ⟨List.mem_singleton_self x, ?_⟩
    intro y hy
    rw [List.mem_singleton] at hy
    exact hy.le
  | cons a t ih =>
    intro x
    have h := ih (max x a)
    have hfold : (a :: t).foldl max x = t.foldl max (max x a) := rfl
    constructor
    · rw [hfold]
      rcases List.mem_cons.mp h.1 with hmem | hmem
      · rw [hmem]
        rcases max_choice x a with hxa | hxa
        · rw [hxa]
          exact List.mem_cons_self _ _
        · rw [hxa]
          exact List.mem_cons_of_mem _ (List.mem_cons_self _ _)
      · exact List.mem_cons_of_mem _ (List.mem_cons_of_mem _ hmem)
    · intro y hy
      rw [hfold]
      have hbase : max x a ≤ t.foldl max (max x a) :=
        h.2 (max x a) (List.mem_cons_self _ _)
      rcases List.mem_cons.mp hy with hy1 | hy1
      · rw [hy1]
        exact le_trans (le_max_left x a) hbase
      · rcases List.mem_cons.mp hy1 with hy2 | hy2
        · rw [hy2]
          exact le_trans (le_max_right x a) hbase
        · exact h.2 y (List.mem_cons_of_mem _ hy2)

theorem foldl_min_spec (xs : List Nat) : ∀ x : Nat,
    xs.foldl min x ∈ x :: xs ∧ ∀ y ∈ x :: xs, xs.foldl min x ≤ y := by
  induction xs with
  | nil =>
    intro x
    refine ⟨List.mem_singleton_self x, ?_⟩
    intro y hy
    rw [List.mem_singleton] at hy
    exact hy.ge
  | cons a t ih =>
    intro x
    have h := ih (min x a)
    have hfold : (a :: t).foldl min x = t.foldl min (min x a) := rfl
    constructor
    · rw [hfold]
      rcases List.mem_cons.mp h.1 with hmem | hmem
      · rw [hmem]
        rcases min_choice x a with hxa | hxa
        · rw [hxa]
          exact List.mem_cons_self _ _
        · rw [hxa]
          exact List.mem_cons_of_mem _ (List.mem_cons_self _ _)
      · exact List.mem_cons_of_mem _ (List.mem_cons_of_mem _ hmem)
    · intro y hy
      rw [hfold]
      have hbase : t.foldl min (min x a) ≤ min x a :=
        h.2 (min x a) (List.mem_cons_self _ _)
      rcases List.mem_cons.mp hy with hy1 | hy1
      · rw [hy1]
        exact le_trans hbase (min_le_left x a)
      · rcases List.mem_cons.mp hy1 with hy2 | hy2
        · rw [hy2]
          exact le_trans hbase (min_le_right x a)
        · exact h.2 y (List.mem_cons_of_mem _ hy2)

theorem isMaxOf_unique {l : List Nat} {a b : Nat}
    (ha : IsMaxOf l a) (hb : IsMaxOf l b) : a = b :=
  Nat.le_antisymm (hb.2 a ha.1) (ha.2 b hb.1)

theorem isMinOf_unique {l : List Nat} {a b : Nat}
    (ha : IsMinOf l a) (hb : IsMinOf l b) : a = b :=
  Nat.le_antisymm (ha.2 b hb.1) (hb.2 a ha.1)

theorem pyMax_ok_of_ne_nil {l : List Nat} (h : l ≠ []) :
    ∃ m, pyMax l = .ok m ∧ IsMaxOf l m := by
  cases l with
  | nil => exact absurd rfl h
  | cons x xs => exact ⟨xs.foldl max x, rfl, foldl_max_spec xs x⟩

theorem pyMin_ok_of_ne_nil {l : List Nat} (h : l ≠ []) :
    ∃ m, pyMin l = .ok m ∧ IsMinOf l m := by
  cases l with
  | nil => exact absurd rfl h
  | cons x xs => exact ⟨xs.foldl min x, rfl, foldl_min_spec xs x⟩

theorem pyMax_isMaxOf {l : List Nat} {m : Nat} (h : pyMax l = .ok m) :
    IsMaxOf l m := by
  cases l with
  | nil => simp [pyMax] at h
  | cons x xs =>
    have hm : xs.foldl max x = m := by simpa [pyMax] using h
    exact hm ▸ foldl_max_spec xs x

theorem pyMin_isMinOf {l : List Nat} {m : Nat} (h : pyMin l = .ok m) :
    IsMinOf l m := by
  cases l with
  | nil => simp [pyMin] at h
  | cons x xs =>
    have hm : xs.foldl min x = m := by simpa [pyMin] using h
    exact hm ▸ foldl_min_spec xs x

theorem pyMax_eq_ok_of_isMaxOf {l : List Nat} {m : Nat} (h : IsMaxOf l m) :
    pyMax l = .ok m := by
  obtain ⟨m2, hok, hm2⟩ := pyMax_ok_of_ne_nil (List.ne_nil_of_mem h.1)
  rw [hok, isMaxOf_unique hm2 h]

theorem pyMin_eq_ok_of_isMinOf {l : List Nat} {m : Nat} (h : IsMinOf l m) :
    pyMin l = .ok m := by
  obtain ⟨m2, hok, hm2⟩ := pyMin_ok_of_ne_nil (List.ne_nil_of_mem h.1)
  rw [hok, isMinOf_unique hm2 h]

theorem removeNumber_fst (p : Player) (c : Nat) :
    (removeNumber p c).1 = { p with numbers := p.numbers.erase c } := by
  by_cases h : c ∈ p.numbers
  · simp [removeNumber, h]
  · simp [removeNumber, h, List.erase_of_not_mem h]

theorem updateGameState_components (c1 c2 : Nat) (p1 p2 : Player) :
    (updateGameState c1 c2 p1 p2).1.numbers = p1.numbers.erase c1 ∧
    (updateGameState c1 c2 p1 p2).2.numbers = p2.numbers.erase c2 ∧
    (updateGameState c1 c2 p1 p2).1.score = p1.score + (if c2 < c1 then 1 else 0) ∧
    (updateGameState c1 c2 p1 p2).2.score = p2.score + (if c1 < c2 then 1 else 0) ∧
    (updateGameState c1 c2 p1 p2).1.name = p1.name ∧
    (updateGameState c1 c2 p1 p2).2.name = p2.name := by
  unfold updateGameState
  split_ifs with h1 h2 <;> simp_all [removeNumber_fst]
  all_goals omega

theorem randomStrategyPlay_valid (i : Nat) : ValidStrategy (randomStrategyPlay i) := by
  intro own opp h
  cases own with
  | nil => exact absurd rfl h
  | cons x xs =>
    refine ⟨(x :: xs).getD (i % (x :: xs).length) 0, rfl, ?_⟩
    have hlt : i % (x :: xs).length < (x :: xs).length :=
      Nat.mod_lt _ (by simp)
    rw [List.getD_eq_getElem _ _ hlt]
    exact List.getElem_mem hlt

theorem highCardStrategyPlay_valid : ValidStrategy highCardStrategyPlay := by
  intro own opp h
  obtain ⟨m, hok, hm⟩ := pyMax_ok_of_ne_nil h
  exact ⟨m, hok, hm.1⟩

theorem lowCardStrategyPlay_valid : ValidStrategy lowCardStrategyPlay := by
  intro own opp h
  obtain ⟨m, hok, hm⟩ := pyMin_ok_of_ne_nil h
  exact ⟨m, hok, hm.1⟩

theorem strategicPlayPlay_valid : ValidStrategy strategicPlayPlay := by
  intro own opp h
  by_cases hopp : opp = []
  · obtain ⟨m, hok, hm⟩ := pyMax_ok_of_ne_nil h
    exact ⟨m, by simp [strategicPlayPlay, hopp, hok], hm.1⟩
  · obtain ⟨oh, hohok, hoh⟩ := pyMax_ok_of_ne_nil hopp
    by_cases hw : own.filter (fun card => decide (oh < card)) = []
    · obtain ⟨m, hok, hm⟩ := pyMin_ok_of_ne_nil h
      refine ⟨m, ?_, hm.1⟩
      simp [strategicPlayPlay, hopp, hohok, hw, hok]
    · obtain ⟨m, hok, hm⟩ := pyMin_ok_of_ne_nil hw
      refine ⟨m, ?_, ?_⟩
      · simp [strategicPlayPlay, hopp, hohok, hw, hok]
      · exact (List.mem_filter.mp hm.1).1

theorem simStep_ok {f g : List Nat → List Nat → Except PyErr Nat}
    (hf : ValidStrategy f) (hg : ValidStrategy g) (s : Player × Player) (n : Nat)
    (h1 : s.1.numbers.length = n + 1) (h2 : s.2.numbers.length = n + 1) :
    ∃ t, simStep f g s = .ok t ∧
      t.1.numbers.length = n ∧ t.2.numbers.length = n := by
  have hne1 : s.1.numbers ≠ [] := by
    intro hnil
    rw [hnil] at h1
    simp at h1
  have hne2 : s.2.numbers ≠ [] := by
    intro hnil
    rw [hnil] at h2
    simp at h2
  obtain ⟨c1, hc1, hm1⟩ := hf s.1.numbers s.2.numbers hne1
  obtain ⟨c2, hc2, hm2⟩ := hg s.2.numbers s.1.numbers hne2
  refine ⟨updateGameState c1 c2 s.1 s.2, ?_, ?_, ?_⟩
  · simp only [simStep, hc1, hc2]
    rfl
  · rw [(updateGameState_components c1 c2 s.1 s.2).1,
      List.length_erase_of_mem hm1, h1]
    omega
  · rw [(updateGameState_components c1 c2 s.1 s.2).2.1,
      List.length_erase_of_mem hm2, h2]
    omega

theorem simulateGame_invariant {f g : List Nat → List Nat → Except PyErr Nat}
    (hf : ValidStrategy f) (hg : ValidStrategy g) (name1 name2 : String) :
    ∀ k, k ≤ 13 → ∃ s, simulateGame f g name1 name2 k = .ok s ∧
      s.1.numbers.length = 13 - k ∧ s.2.numbers.length = 13 - k := by
  intro k
  induction k with
  | zero =>
    intro _
    exact ⟨(mkPlayer name1, mkPlayer name2), rfl, by simp [mkPlayer], by simp [mkPlayer]⟩
  | succ k ih =>
    intro hk
    obtain ⟨s, hs, hs1, hs2⟩ := ih (Nat.le_of_succ_le hk)
    have hsub : 13 - k = (13 - (k + 1)) + 1 := by omega
    obtain ⟨t, ht, ht1, ht2⟩ :=
      simStep_ok hf hg s (13 - (k + 1)) (by omega) (by omega)
    refine ⟨t, ?_, ht1, ht2⟩
    simp only [simulateGame, hs]
    exact ht

theorem playTurn_invariant {strat : List Nat → List Nat → Except PyErr Nat}
    (hs : ValidStrategy strat) (hu co : Player) (c : Nat) (n : Nat)
    (h1 : hu.numbers.length = n + 1) (h2 : co.numbers.length = n + 1)
    (hnd : hu.numbers.Nodup) :
    ∀ t, playTurn strat hu co c = some t →
      t.1.numbers.length = n ∧ t.2.numbers.length = n ∧ t.1.numbers.Nodup := by
  intro t ht
  by_cases hc : c ∈ hu.numbers
  · have hne2 : co.numbers ≠ [] := by
      intro hnil
      rw [hnil] at h2
      simp at h2
    have hgpc : getPlayerChoice hu c =
        some ({ hu with numbers := hu.numbers.erase c }, c) := by
      simp [getPlayerChoice, removeNumber, hc]
    obtain ⟨cc, hcc, hmc⟩ := hs co.numbers (hu.numbers.erase c) hne2
    rw [playTurn, hgpc] at ht
    simp only [hcc] at ht
    have hteq : t = updateGameState c cc { hu with numbers := hu.numbers.erase c } co :=
      (Option.some_injective _ ht).symm
    have hnotmem : c ∉ hu.numbers.erase c := by
      intro hmem
      exact ((hnd.mem_erase_iff).mp hmem).1 rfl
    subst hteq
    refine ⟨?_, ?_, ?_⟩
    · rw [(updateGameState_components c cc _ co).1]
      simp only [List.erase_of_not_mem hnotmem]
      rw [List.length_erase_of_mem hc, h1]
      omega
    · rw [(updateGameState_components c cc _ co).2.1,
        List.length_erase_of_mem hmc, h2]
      omega
    · rw [(updateGameState_components c cc _ co).1]
      simp only [List.erase_of_not_mem hnotmem]
      exact hnd.erase c
  · rw [playTurn] at ht
    simp [getPlayerChoice, removeNumber, hc] at ht

theorem playMatch_invariant {strat : List Nat → List Nat → Except PyErr Nat}
    (hs : ValidStrategy strat) :
    ∀ (cs : List Nat) (s : Player × Player) (n : Nat),
      s.1.numbers.length = n → s.2.numbers.length = n → s.1.numbers.Nodup →
      cs.length ≤ n → ∀ t, playMatch strat cs s = some t →
        t.1.numbers.length = n - cs.length ∧ t.2.numbers.length = n - cs.length := by
  intro cs
  induction cs with
  | nil =>
    intro s n h1 h2 _ _ t ht
    have : s = t := Option.some_injective _ ht
    subst this
    simp [h1, h2]
  | cons c cs ih =>
    intro s n h1 h2 hnd hlen t ht
    have hn : n = (n - 1) + 1 := by
      have := List.length_cons c cs ▸ hlen
      omega
    rw [playMatch] at ht
    rcases h : playTurn strat s.1 s.2 c with _ | s2
    · rw [h] at ht
      simp at ht
    · rw [h] at ht
      obtain ⟨hl1, hl2, hnd2⟩ :=
        playTurn_invariant hs s.1 s.2 c (n - 1) (by omega) (by omega) hnd s2 h
      have := ih s2 (n - 1) hl1 hl2 hnd2 (by simp at hlen; omega) t ht
      refine ⟨?_, ?_⟩ <;> simp [List.length_cons] <;> omega

/-! ### Claims -/

/-- C1: `StrategicPlay.play` on non-empty `own` returns `max(own)` when the
opponent set is empty; otherwise, with `oh = max(opponent)` and candidates
the elements of `own` strictly above `oh`, it returns the minimum candidate
when one exists and `min(own)` otherwise; and on the three concrete inputs it
returns 7, 1 and 8 respectively. -/
theorem strategicPlay_beat_opponent_max (own opp : List Nat) (h : own ≠ []) :
    (opp = [] → ∃ m, strategicPlayPlay own opp = .ok m ∧ IsMaxOf own m) ∧
    (∀ oh, IsMaxOf opp oh →
      (own.filter (fun card => decide (oh < card)) ≠ [] →
        ∃ m, strategicPlayPlay own opp = .ok m ∧
          IsMinOf (own.filter (fun card => decide (oh < card))) m) ∧
      (own.filter (fun card => decide (oh < card)) = [] →
        ∃ m, strategicPlayPlay own opp = .ok m ∧ IsMinOf own m)) ∧
    strategicPlayPlay [3, 7, 9] [5, 6] = .ok 7 ∧
    strategicPlayPlay [1, 2, 3] [9, 10] = .ok 1 ∧
    strategicPlayPlay [4, 8] [] = .ok 8 := by
  refine ⟨?_, ?_, by decide, by decide, by decide⟩
  · intro hopp
    obtain ⟨m, hok, hm⟩ := pyMax_ok_of_ne_nil h
    exact ⟨m, by simp [strategicPlayPlay, hopp, hok], hm⟩
  · intro oh hoh
    have hoppne : opp ≠ [] := List.ne_nil_of_mem hoh.1
    have hohok : pyMax opp = .ok oh := pyMax_eq_ok_of_isMaxOf hoh
    constructor
    · intro hw
      obtain ⟨m, hok, hm⟩ := pyMin_ok_of_ne_nil hw
      exact ⟨m, by simp [strategicPlayPlay, hoppne, hohok, hw, hok], hm⟩
    · intro hw
      obtain ⟨m, hok, hm⟩ := pyMin_ok_of_ne_nil h
      exact ⟨m, by simp [strategicPlayPlay, hoppne, hohok, hw, hok], hm⟩

/-- Witness for C1 at `own = [3,7,9]`, `opp = [5,6]`. -/
theorem strategicPlay_beat_opponent_max_witness :
    ∃ m, strategicPlayPlay [3, 7, 9] [5, 6] = .ok m ∧
      IsMinOf ([3, 7, 9].filter (fun card => decide (6 < card))) m := by
  have h := (strategicPlay_beat_opponent_max [3, 7, 9] [5, 6] (by decide)).2.1 6
    ⟨by decide, by decide⟩
  exact h.1 (by decide)

/-- C2: every concrete strategy, on every non-empty `own` and any opponent
set (and for the Random strategy, every possible random draw `i`), returns
normally with an element of `own`. -/
theorem strategies_return_member :
    (∀ i, ValidStrategy (randomStrategyPlay i)) ∧
    ValidStrategy highCardStrategyPlay ∧
    ValidStrategy lowCardStrategyPlay ∧
    ValidStrategy strategicPlayPlay :=
  ⟨randomStrategyPlay_valid, highCardStrategyPlay_valid,
    lowCardStrategyPlay_valid, strategicPlayPlay_valid⟩

/-- Witness for C2 at `own = [2, 9, 4]`. -/
theorem strategies_return_member_witness :
    (∃ r, randomStrategyPlay 5 [2, 9, 4] [] = .ok r ∧ r ∈ [2, 9, 4]) ∧
    (∃ r, highCardStrategyPlay [2, 9, 4] [] = .ok r ∧ r ∈ [2, 9, 4]) ∧
    (∃ r, lowCardStrategyPlay [2, 9, 4] [] = .ok r ∧ r ∈ [2, 9, 4]) ∧
    (∃ r, strategicPlayPlay [2, 9, 4] [] = .ok r ∧ r ∈ [2, 9, 4]) :=
  ⟨strategies_return_member.1 5 [2, 9, 4] [] (by decide),
   strategies_return_member.2.1 [2, 9, 4] [] (by decide),
   strategies_return_member.2.2.1 [2, 9, 4] [] (by decide),
   strategies_return_member.2.2.2 [2, 9, 4] [] (by decide)⟩

/-- C3: `_update_game_state` adds exactly 1 to the strictly higher side's
score, leaves the other score unchanged, changes neither score on a tie, and
modifies nothing else besides removing the two played numbers. -/
theorem updateGameState_turn_resolution (choiceA choiceB : Nat) (p1 p2 : Player) :
    (updateGameState choiceA choiceB p1 p2).1.score
        = p1.score + (if choiceB < choiceA then 1 else 0) ∧
    (updateGameState choiceA choiceB p1 p2).2.score
        = p2.score + (if choiceA < choiceB then 1 else 0) ∧
    (updateGameState choiceA choiceB p1 p2).1.name = p1.name ∧
    (updateGameState choiceA choiceB p1 p2).2.name = p2.name ∧
    (updateGameState choiceA choiceB p1 p2).1.numbers = p1.numbers.erase choiceA ∧
    (updateGameState choiceA choiceB p1 p2).2.numbers = p2.numbers.erase choiceB := by
  obtain ⟨h1, h2, h3, h4, h5, h6⟩ := updateGameState_components choiceA choiceB p1 p2
  exact ⟨h3, h4, h5, h6, h1, h2⟩

/-- C4: `_update_game_state` removes the played number from each side
unconditionally: both remaining sets shrink by exactly 1 whenever the choices
are present, and on the concrete tie 7 vs 7 both scores stay 0 while 7 is
removed from both fresh hands. -/
theorem updateGameState_removes_unconditionally (choiceA choiceB : Nat)
    (p1 p2 : Player) (h1 : choiceA ∈ p1.numbers) (h2 : choiceB ∈ p2.numbers) :
    (updateGameState choiceA choiceB p1 p2).1.numbers.length + 1
        = p1.numbers.length ∧
    (updateGameState choiceA choiceB p1 p2).2.numbers.length + 1
        = p2.numbers.length ∧
    updateGameState 7 7 (mkPlayer "A") (mkPlayer "B") =
      ({ name := "A", score := 0, numbers := [1, 2, 3, 4, 5, 6, 8, 9, 10, 11, 12, 13] },
       { name := "B", score := 0, numbers := [1, 2, 3, 4, 5, 6, 8, 9, 10, 11, 12, 13] }) := by
  refine ⟨?_, ?_, by decide⟩
  · rw [(updateGameState_components choiceA choiceB p1 p2).1,
      List.length_erase_of_mem h1]
    have := List.length_pos_of_mem h1
    omega
  · rw [(updateGameState_components choiceA choiceB p1 p2).2.1,
      List.length_erase_of_mem h2]
    have := List.length_pos_of_mem h2
    omega

/-- Witness for C4 at choices 10 and 3 on fresh hands. -/
theorem updateGameState_removes_unconditionally_witness :
    (updateGameState 10 3 (mkPlayer "A") (mkPlayer "B")).1.numbers.length + 1
        = (mkPlayer "A").numbers.length ∧
    (updateGameState 10 3 (mkPlayer "A") (mkPlayer "B")).2.numbers.length + 1
        = (mkPlayer "B").numbers.length :=
  ⟨(updateGameState_removes_unconditionally 10 3 (mkPlayer "A") (mkPlayer "B")
      (by decide) (by decide)).1,
   (updateGameState_removes_unconditionally 10 3 (mkPlayer "A") (mkPlayer "B")
      (by decide) (by decide)).2.1⟩

/-- C5: in a full match — simulation (`simulate_game`) or interactive
(`play`) — with strategies meeting the §4.1 contract and valid human inputs,
after `k` resolved turns each hand holds `13 - k` numbers for every
`k ≤ totalTurns`, and after the 13th turn both hands are empty. -/
theorem match_hand_sizes (f g strat : List Nat → List Nat → Except PyErr Nat)
    (hf : ValidStrategy f) (hg : ValidStrategy g) (hstrat : ValidStrategy strat)
    (name1 name2 : String) (choices : List Nat) (hch : choices.length = totalTurns) :
    (∀ k, k ≤ totalTurns → ∃ s, simulateGame f g name1 name2 k = .ok s ∧
      s.1.numbers.length = 13 - k ∧ s.2.numbers.length = 13 - k) ∧
    (∀ s, simulateGame f g name1 name2 totalTurns = .ok s →
      s.1.numbers = [] ∧ s.2.numbers = []) ∧
    (∀ k, k ≤ totalTurns → ∀ s,
      playMatch strat (choices.take k) (mkPlayer "You", mkPlayer "Computer") = some s →
        s.1.numbers.length = 13 - k ∧ s.2.numbers.length = 13 - k) ∧
    (∀ s, playMatch strat choices (mkPlayer "You", mkPlayer "Computer") = some s →
      s.1.numbers = [] ∧ s.2.numbers = []) := by
  have hsim := simulateGame_invariant hf hg name1 name2
  have hlen1 : (mkPlayer "You").numbers.length = 13 := by
    simp [mkPlayer]
  have hlen2 : (mkPlayer "Computer").numbers.length = 13 := by
    simp [mkPlayer]
  have hnd : (mkPlayer "You").numbers.Nodup := by decide
  have key : ∀ k, k ≤ totalTurns → ∀ s,
      playMatch strat (choices.take k) (mkPlayer "You", mkPlayer "Computer") = some s →
        s.1.numbers.length = 13 - k ∧ s.2.numbers.length = 13 - k := by
    intro k hk s hps
    have hk13 : k ≤ 13 := hk
    have htake : (choices.take k).length = k := by
      rw [List.length_take, hch]
      show min k totalTurns = k
      have : totalTurns = 13 := rfl
      omega
    have := playMatch_invariant hstrat (choices.take k)
      (mkPlayer "You", mkPlayer "Computer") 13 hlen1 hlen2 hnd
      (by omega) s hps
    rw [htake] at this
    exact this
  refine ⟨fun k hk => hsim k hk, ?_, key, ?_⟩
  · intro s hs
    obtain ⟨s2, hs2, h1, h2⟩ := hsim totalTurns (le_refl _)
    rw [hs] at hs2
    obtain rfl : s = s2 := Except.ok.inj hs2
    constructor
    · exact List.length_eq_zero.mp (by rw [h1]; rfl)
    · exact List.length_eq_zero.mp (by rw [h2]; rfl)
  · intro s hps
    have hchoices : choices.take totalTurns = choices := by
      rw [← hch]
      exact List.take_length choices
    have := key totalTurns (le_refl _) s (by rw [hchoices]; exact hps)
    constructor
    · exact List.length_eq_zero.mp (by rw [this.1]; rfl)
    · exact List.length_eq_zero.mp (by rw [this.2]; rfl)

/-- Witness for C5: High Card vs Low Card simulation, and an interactive
match on inputs 1..13, both reach empty hands after turn 13. -/
theorem match_hand_sizes_witness :
    (∃ s, simulateGame highCardStrategyPlay lowCardStrategyPlay
        "High Card" "Low Card" totalTurns = .ok s ∧
      s.1.numbers.length = 13 - totalTurns ∧ s.2.numbers.length = 13 - totalTurns) ∧
    (∀ s, playMatch highCardStrategyPlay (List.range' 1 13)
        (mkPlayer "You", mkPlayer "Computer") = some s →
      s.1.numbers = [] ∧ s.2.numbers = []) :=
  ⟨(match_hand_sizes highCardStrategyPlay lowCardStrategyPlay highCardStrategyPlay
      highCardStrategyPlay_valid lowCardStrategyPlay_valid highCardStrategyPlay_valid
      "High Card" "Low Card" (List.range' 1 13) rfl).1 totalTurns (le_refl _),
   (match_hand_sizes highCardStrategyPlay lowCardStrategyPlay highCardStrategyPlay
      highCardStrategyPlay_valid lowCardStrategyPlay_valid highCardStrategyPlay_valid
      "High Card" "Low Card" (List.range' 1 13) rfl).2.2.2⟩

/-- C6 counterexample: `HighCardStrategy.play` on an empty own set fails with
the built-in `ValueError` from `max`, not with a dedicated `InvalidState`
condition. -/
theorem empty_own_not_invalidState :
    highCardStrategyPlay [] [] = .error .valueError ∧
    highCardStrategyPlay [] [] ≠ .error .invalidState :=
  ⟨rfl, by decide⟩

/-- C6 amended: every strategy's `play` on an empty own set fails, but with
the built-in exception of the operation it delegates to — `IndexError` from
`random.choice` for Random, `ValueError` from `max`/`min` for the others —
there is no dedicated `InvalidState` defensive check. -/
theorem empty_own_raises_builtin : ∀ (i : Nat) (opp : List Nat),
    randomStrategyPlay i [] opp = .error .indexError ∧
    highCardStrategyPlay [] opp = .error .valueError ∧
    lowCardStrategyPlay [] opp = .error .valueError ∧
    strategicPlayPlay [] opp = .error .valueError := by
  intro i opp
  refine ⟨rfl, rfl, rfl, ?_⟩
  cases opp with
  | nil => rfl
  | cons x xs => rfl

/-- C7: the Highest strategy returns `max(own)` and the Lowest strategy
returns `min(own)` on every non-empty `own`; Highest, Lowest and
Beat-Opponent-Max give identical outputs on identical `(own, opponent)`
inputs. -/
theorem highest_lowest_deterministic (own opp : List Nat) (h : own ≠ []) :
    (∃ m, highCardStrategyPlay own opp = .ok m ∧ IsMaxOf own m) ∧
    (∃ m, lowCardStrategyPlay own opp = .ok m ∧ IsMinOf own m) ∧
    (∀ own2 opp2, own = own2 → opp = opp2 →
      highCardStrategyPlay own opp = highCardStrategyPlay own2 opp2 ∧
      lowCardStrategyPlay own opp = lowCardStrategyPlay own2 opp2 ∧
      strategicPlayPlay own opp = strategicPlayPlay own2 opp2) := by
  refine ⟨?_, ?_, ?_⟩
  · obtain ⟨m, hok, hm⟩ := pyMax_ok_of_ne_nil h
    exact ⟨m, hok, hm⟩
  · obtain ⟨m, hok, hm⟩ := pyMin_ok_of_ne_nil h
    exact ⟨m, hok, hm⟩
  · intro own2 opp2 h1 h2
    subst h1
    subst h2
    exact ⟨rfl, rfl, rfl⟩

/-- Witness for C7 at `own = [4, 2, 8]`, `opp = [1]`. -/
theorem highest_lowest_deterministic_witness :
    (∃ m, highCardStrategyPlay [4, 2, 8] [1] = .ok m ∧ IsMaxOf [4, 2, 8] m) ∧
    highCardStrategyPlay [4, 2, 8] [1] = highCardStrategyPlay [4, 2, 8] [1] :=
  ⟨(highest_lowest_deterministic [4, 2, 8] [1] (by decide)).1,
   ((highest_lowest_deterministic [4, 2, 8] [1] (by decide)).2.2
      [4, 2, 8] [1] rfl rfl).1⟩

/-- C8: the 13-turn Highest-vs-Lowest simulation is a fixed computation: the
final state is exactly score 6 against score 6 with both hands empty, turn
`k` pairs `14 - k` against `k`, the running scores after `k` turns are
`min k 6` and `k - 7`
(so side A wins turns 1-6, turn 7 ties, side B wins turns 8-13), and
`_end_game` on the final scores declares a tie. -/
theorem high_vs_low_match :
    simulateGame highCardStrategyPlay lowCardStrategyPlay
        "High Card" "Low Card" totalTurns =
      .ok ({ name := "High Card", score := 6, numbers := [] },
        { name := "Low Card", score := 6, numbers := [] }) ∧
    (∀ k ∈ Finset.Icc 1 totalTurns,
      turnChoices highCardStrategyPlay lowCardStrategyPlay
        "High Card" "Low Card" k = .ok (14 - k, k)) ∧
    (∀ k ∈ Finset.range (totalTurns + 1),
      (simulateGame highCardStrategyPlay lowCardStrategyPlay
          "High Card" "Low Card" k).map (fun s => (s.1.score, s.2.score))
        = .ok (min k 6, k - 7)) ∧
    endGame { name := "High Card", score := 6, numbers := [] }
      { name := "Low Card", score := 6, numbers := [] } = .tieGame :=
  ⟨by decide, by decide, by decide, by decide⟩

/-- C9: in interactive mode the human's accepted number is removed inside the
input-validation step, so the computer's strategy is consulted with opponent
numbers that no longer contain it, and the later removal during turn
resolution is a no-op. -/
theorem human_choice_removed_before_strategy
    (strat : List Nat → List Nat → Except PyErr Nat)
    (human computer : Player) (c : Nat)
    (hc : c ∈ human.numbers) (hnd : human.numbers.Nodup) :
    getPlayerChoice human c =
      some ({ human with numbers := human.numbers.erase c }, c) ∧
    c ∉ human.numbers.erase c ∧
    (∀ t, playTurn strat human computer c = some t →
      t.1.numbers = human.numbers.erase c) := by
  have hgpc : getPlayerChoice human c =
      some ({ human with numbers := human.numbers.erase c }, c) := by
    simp [getPlayerChoice, removeNumber, hc]
  have hnot : c ∉ human.numbers.erase c := by
    intro hmem
    exact ((hnd.mem_erase_iff).mp hmem).1 rfl
  refine ⟨hgpc, hnot, ?_⟩
  intro t ht
  rw [playTurn, hgpc] at ht
  dsimp only at ht
  rcases hcc : strat computer.numbers (human.numbers.erase c) with e | cc
  · rw [hcc] at ht
    simp at ht
  · rw [hcc] at ht
    dsimp only at ht
    injection ht with hteq
    subst hteq
    rw [(updateGameState_components c cc
      { human with numbers := human.numbers.erase c } computer).1]
    dsimp only
    rw [List.erase_of_not_mem hnot]

/-- Witness for C9: the human plays 5 from a fresh hand against the Highest
strategy. -/
theorem human_choice_removed_before_strategy_witness :
    getPlayerChoice (mkPlayer "You") 5 =
      some ({ mkPlayer "You" with
        numbers := (mkPlayer "You").numbers.erase 5 }, 5) ∧
    5 ∉ (mkPlayer "You").numbers.erase 5 :=
  ⟨(human_choice_removed_before_strategy highCardStrategyPlay (mkPlayer "You")
      (mkPlayer "Computer") 5 (by decide) (by decide)).1,
   (human_choice_removed_before_strategy highCardStrategyPlay (mkPlayer "You")
      (mkPlayer "Computer") 5 (by decide) (by decide)).2.1⟩

/-- C10: `Player.remove_number` returns `True` and removes exactly one
occurrence of a present number (that number's count drops by 1, every other
count is unchanged, the length drops by 1, name and score are untouched),
and returns `False` leaving the player completely unchanged when the number
is absent; it is a total function and never raises. -/
theorem removeNumber_behavior (p : Player) (n : Nat) :
    (n ∈ p.numbers →
      removeNumber p n = ({ p with numbers := p.numbers.erase n }, true) ∧
      (p.numbers.erase n).count n + 1 = p.numbers.count n ∧
      (∀ m, m ≠ n → (p.numbers.erase n).count m = p.numbers.count m) ∧
      (p.numbers.erase n).length + 1 = p.numbers.length) ∧
    (n ∉ p.numbers → removeNumber p n = (p, false)) := by
  constructor
  · intro h
    refine ⟨by simp [removeNumber, h], ?_, ?_, ?_⟩
    · have hpos : 0 < p.numbers.count n := List.count_pos_iff.mpr h
      rw [List.count_erase_self]
      omega
    · intro m hm
      exact List.count_erase_of_ne hm p.numbers
    · rw [List.length_erase_of_mem h]
      have := List.length_pos_of_mem h
      omega
  · intro h
    simp [removeNumber, h]

/-- Witness for C10: removing 5 (present) and 20 (absent) from a fresh hand. -/
theorem removeNumber_behavior_witness :
    removeNumber (mkPlayer "X") 5 =
      ({ mkPlayer "X" with numbers := (mkPlayer "X").numbers.erase 5 }, true) ∧
    removeNumber (mkPlayer "X") 20 = (mkPlayer "X", false) :=
  ⟨((removeNumber_behavior (mkPlayer "X") 5).1 (by decide)).1,
   (removeNumber_behavior (mkPlayer "X") 20).2 (by decide)⟩
